import Mathlib

/-!
Shallow embedding of the SHA-256 implementation in `src/main.c`
(function `sha256`, lines 108-275, together with its helper macros).

Machine integers are modelled as `Nat` with explicit reduction `% 2^32`
(respectively `% 2^64` for the bit-length counter) exactly where the C
types `uint32_t` / `uint64_t` truncate.  The input buffer is a `List Nat`
of byte values together with an explicit length argument, mirroring the C
signature `sha256(const uint8_t *data, size_t len)`.
-/

set_option maxRecDepth 100000

namespace CSha256

/-- C macro `ROTR(x,n)` (line 65): `(x >> n) | (x << (32 - n))` on `uint32_t`;
the left shift truncates modulo 2^32. -/
def ROTR (x n : Nat) : Nat := (x >>> n) ||| ((x <<< (32 - n)) % 2 ^ 32)

/-- C macro `ROTL(x,n)` (line 72): `(x << n) | (x >> (32 - n))` on `uint32_t`. -/
def ROTL (x n : Nat) : Nat := ((x <<< n) % 2 ^ 32) ||| (x >>> (32 - n))

/-- C macro `CH(x,y,z)` (line 50): `(x & y) ^ (~x & z)`; on a 32-bit value the
complement `~x` is `x ^ 0xffffffff`. -/
def CH (x y z : Nat) : Nat := (x &&& y) ^^^ ((x ^^^ 0xffffffff) &&& z)

/-- C macro `MAJ(x,y,z)` (line 58): `(x & y) ^ (x & z) ^ (y & z)`. -/
def MAJ (x y z : Nat) : Nat := (x &&& y) ^^^ (x &&& z) ^^^ (y &&& z)

/-- C macro `e0(x)` (line 78), the big sigma0: `rotr2 ^ rotr13 ^ rotr22`. -/
def e0 (x : Nat) : Nat := ROTR x 2 ^^^ ROTR x 13 ^^^ ROTR x 22

/-- C macro `e1(x)` (line 79), the big sigma1: `rotr6 ^ rotr11 ^ rotr25`. -/
def e1 (x : Nat) : Nat := ROTR x 6 ^^^ ROTR x 11 ^^^ ROTR x 25

/-- C macro `s0(x)` (line 85), the small sigma0: `rotr7 ^ rotr18 ^ (x >> 3)`. -/
def s0 (x : Nat) : Nat := ROTR x 7 ^^^ ROTR x 18 ^^^ (x >>> 3)

/-- C macro `s1(x)` (line 86), the small sigma1: `rotr17 ^ rotr19 ^ (x >> 10)`. -/
def s1 (x : Nat) : Nat := ROTR x 17 ^^^ ROTR x 19 ^^^ (x >>> 10)

/-- C macro `BYTESWAP(x)` (line 92):
`(ROTR(x,8) & 0xff00ff00) | (ROTL(x,8) & 0x00ff00ff)`. -/
def BYTESWAP (x : Nat) : Nat := (ROTR x 8 &&& 0xff00ff00) ||| (ROTL x 8 &&& 0x00ff00ff)

/-- Addition on `uint32_t`: wraps modulo 2^32. -/
def add32 (x y : Nat) : Nat := (x + y) % 2 ^ 32

/-- The 64 round constants `K` (lines 117-126), written in decimal: the
first entry is 1116352408 = 0x428a2f98, the last is 3329325298 =
0xc67178f2, in the order of the C initialiser. -/
def K : List Nat := [
  1116352408, 1899447441, 3049323471, 3921009573,
  961987163, 1508970993, 2453635748, 2870763221,
  3624381080, 310598401, 607225278, 1426881987,
  1925078388, 2162078206, 2614888103, 3248222580,
  3835390401, 4022224774, 264347078, 604807628,
  770255983, 1249150122, 1555081692, 1996064986,
  2554220882, 2821834349, 2952996808, 3210313671,
  3336571891, 3584528711, 113926993, 338241895,
  666307205, 773529912, 1294757372, 1396182291,
  1695183700, 1986661051, 2177026350, 2456956037,
  2730485921, 2820302411, 3259730800, 3345764771,
  3516065817, 3600352804, 4094571909, 275423344,
  430227734, 506948616, 659060556, 883997877,
  958139571, 1322822218, 1537002063, 1747873779,
  1955562222, 2024104815, 2227730452, 2361852424,
  2428436474, 2756734187, 3204031479, 3329325298]

/-- The initial hash value `H` (lines 136-145), written in decimal: the
first entry is 1779033703 = 0x6a09e667, the last is 1541459225 =
0x5be0cd19. -/
def Hinit : List Nat := [
  1779033703, 3144134277, 1013904242, 2773480762,
  1359893119, 2600822924, 528734635, 1541459225]

/-- Number of message blocks (line 152):
`N = (len / 64) + 1 + (len % 64 >= 56 ? 1 : 0)`. -/
def Nblocks (len : Nat) : Nat := len / 64 + 1 + (if len % 64 ≥ 56 then 1 else 0)

/-- Bytes copied into the current block (line 182):
`msgblk_len = MIN(len - data_pos, 64)`. -/
def msgblkLen (len dataPos : Nat) : Nat := min (len - dataPos) 64

/-- Condition guarding the `0x80` padding-marker store (line 187):
`(msgblk_len < 64 && msgblk_len != 0) || (len % 64 == 0 && i == N)`. -/
def padHere (len mlen i N : Nat) : Bool :=
  (decide (mlen < 64) && decide (mlen ≠ 0)) || (decide (len % 64 = 0) && decide (i = N))

/-- Byte `j` (0 ≤ j < 64) of message block `i` before the byte swap:
bytes below `msgblk_len` come from the input (the `memcpy` on line 183),
the byte at `msgblk_len` is `0x80` when the padding condition holds
(line 188), and all further bytes keep the zero initialisation of `M`
(line 160). -/
def blockByte (data : List Nat) (len dataPos i N j : Nat) : Nat :=
  let mlen := msgblkLen len dataPos
  if j < mlen then data.getD (dataPos + j) 0
  else if padHere len mlen i N && decide (j = mlen) then 0x80
  else 0

/-- Word `w` of the message block after the conversion to big endian
(lines 191-192): the `memcpy` on a little-endian host loads the four bytes
least-significant first, and `BYTESWAP` then reverses them. -/
def wordAt (data : List Nat) (len dataPos i N w : Nat) : Nat :=
  BYTESWAP (blockByte data len dataPos i N (4 * w)
    + blockByte data len dataPos i N (4 * w + 1) * 2 ^ 8
    + blockByte data len dataPos i N (4 * w + 2) * 2 ^ 16
    + blockByte data len dataPos i N (4 * w + 3) * 2 ^ 24)

/-- The 16 words of message block `i` as assembled by lines 160-200: the
byte-swapped data/padding words, with words 15 and 14 overwritten by the
low and high halves of the 64-bit bit length `(uint64_t)len * 8` when `i`
is the final block (lines 195-200). -/
def blockWords (data : List Nat) (len dataPos i N : Nat) : List Nat :=
  let base := (List.range 16).map (wordAt data len dataPos i N)
  if i = N then
    let bitlen := (len * 8) % 2 ^ 64
    (base.set 15 (bitlen % 2 ^ 32)).set 14 ((bitlen >>> 32) % 2 ^ 32)
  else base

/-- One step of the message-schedule expansion (line 209): append
`s1(W[t-2]) + W[t-7] + s0(W[t-15]) + W[t-16]` (left-associated `uint32_t`
additions) where `t` is the current length of the schedule. -/
def schedExtend (W : List Nat) : List Nat :=
  let n := W.length
  W ++ [add32 (add32 (add32 (s1 (W.getD (n - 2) 0)) (W.getD (n - 7) 0))
    (s0 (W.getD (n - 15) 0))) (W.getD (n - 16) 0)]

/-- The 64-word message schedule (lines 208-209): the 16 block words
followed by 48 expansion steps. -/
def schedule (Mw : List Nat) : List Nat := schedExtend^[48] Mw

/-- The eight working variables `a..h` (line 174). -/
structure Regs where
  a : Nat
  b : Nat
  c : Nat
  d : Nat
  e : Nat
  f : Nat
  g : Nat
  h : Nat
deriving DecidableEq

/-- One compression round (lines 230-239):
`T1 = h + e1(e) + CH(e,f,g) + k + w`, `T2 = e0(a) + MAJ(a,b,c)`, then the
shift `h=g; g=f; f=e; e=d+T1; d=c; c=b; b=a; a=T1+T2`. -/
def ROUND (k w : Nat) (r : Regs) : Regs :=
  let T1 := add32 (add32 (add32 (add32 r.h (e1 r.e)) (CH r.e r.f r.g)) k) w
  let T2 := add32 (e0 r.a) (MAJ r.a r.b r.c)
  ⟨add32 T1 T2, r.a, r.b, r.c, add32 r.d T1, r.e, r.f, r.g⟩

/-- The working variables after the first `t` rounds of the loop on
lines 228-240, starting from `r`. -/
def compressFrom (Ws : List Nat) (r : Regs) : Nat → Regs
  | 0 => r
  | t + 1 => ROUND (K.getD t 0) (Ws.getD t 0) (compressFrom Ws r t)

/-- Initialisation of the working variables from the intermediate hash
value (lines 215-222). -/
def initRegs (H : List Nat) : Regs :=
  ⟨H.getD 0 0, H.getD 1 0, H.getD 2 0, H.getD 3 0,
   H.getD 4 0, H.getD 5 0, H.getD 6 0, H.getD 7 0⟩

/-- Processing of one message block: 64 compression rounds followed by the
add-back `H[j] += reg` (lines 246-253, `uint32_t` wraparound addition). -/
def processBlock (H Mw : List Nat) : List Nat :=
  let r := compressFrom (schedule Mw) (initRegs H) 64
  [add32 (H.getD 0 0) r.a, add32 (H.getD 1 0) r.b,
   add32 (H.getD 2 0) r.c, add32 (H.getD 3 0) r.d,
   add32 (H.getD 4 0) r.e, add32 (H.getD 5 0) r.f,
   add32 (H.getD 6 0) r.g, add32 (H.getD 7 0) r.h]

/-- State of the main loop (lines 151-254) after `i` blocks: the
intermediate hash value `H` and the cursor `data_pos`. -/
def sha256Loop (data : List Nat) (len : Nat) : Nat → List Nat × Nat
  | 0 => (Hinit, 0)
  | i + 1 =>
    let s := sha256Loop data len i
    let Mw := blockWords data len s.2 (i + 1) (Nblocks len)
    (processBlock s.1 Mw, s.2 + msgblkLen len s.2)

/-- The four bytes of a `uint32_t` in the little-endian order in which the
`memcpy` on line 272 lays them out in `md`. -/
def wordBytesLE (w : Nat) : List Nat :=
  [w % 2 ^ 8, (w >>> 8) % 2 ^ 8, (w >>> 16) % 2 ^ 8, (w >>> 24) % 2 ^ 8]

/-- Serialisation of the final hash value into the 32-byte digest
(lines 262-272): each word is byte-swapped to big endian and then copied
little-endian-first into `md`. -/
def digestOfH (H : List Nat) : List Nat :=
  (H.map (fun w => wordBytesLE (BYTESWAP w))).flatten

/-- The function `sha256(data, len)` (lines 108-275): process all
`Nblocks len` message blocks and serialise the final hash value. -/
def sha256 (data : List Nat) (len : Nat) : List Nat :=
  digestOfH (sha256Loop data len (Nblocks len)).1

/-! Helper lemmas about the embedding. -/

/-- After `i` loop iterations the cursor `data_pos` equals `min (64*i) len`:
each full block consumes 64 bytes until the input is exhausted. -/
lemma dataPos_eq (data : List Nat) (len i : Nat) :
    (sha256Loop data len i).2 = min (64 * i) len := by
  induction i with
  | zero => simp [sha256Loop]
  | succ n ih =>
    show (sha256Loop data len n).2 + msgblkLen len (sha256Loop data len n).2 = _
    rw [ih]; unfold msgblkLen; omega

/-- The intermediate hash value always has exactly 8 words. -/
lemma hashState_length (data : List Nat) (len i : Nat) :
    (sha256Loop data len i).1.length = 8 := by
  induction i with
  | zero => rfl
  | succ n ih =>
    show (processBlock (sha256Loop data len n).1 _).length = 8
    rfl

/-- The serialised digest of an 8-word hash value has 32 bytes. -/
lemma digestOfH_length (H : List Nat) : (digestOfH H).length = 4 * H.length := by
  induction H with
  | nil => rfl
  | cons w t ih => simp [digestOfH, wordBytesLE] at ih ⊢; omega

/-- `schedExtend` appends exactly one word. -/
lemma schedExtend_length (W : List Nat) : (schedExtend W).length = W.length + 1 := by
  simp [schedExtend]

/-- `schedExtend` leaves the existing schedule words unchanged. -/
lemma schedExtend_getD_lt (W : List Nat) (i : Nat) (h : i < W.length) :
    (schedExtend W).getD i 0 = W.getD i 0 := by
  simp [schedExtend, List.getD_eq_getElem?_getD, List.getElem?_append_left h]

/-- The word appended by `schedExtend` is the expansion recurrence evaluated
at the current length. -/
lemma schedExtend_getD_self (W : List Nat) :
    (schedExtend W).getD W.length 0 =
      add32 (add32 (add32 (s1 (W.getD (W.length - 2) 0)) (W.getD (W.length - 7) 0))
        (s0 (W.getD (W.length - 15) 0))) (W.getD (W.length - 16) 0) := by
  simp [schedExtend, List.getD_eq_getElem?_getD,
    List.getElem?_append_right (Nat.le_refl W.length)]

/-- Iterating `schedExtend` keeps the original words and makes every new
word satisfy the expansion recurrence. -/
lemma schedExtend_iterate_spec (W : List Nat) (h16 : 16 ≤ W.length) (k : Nat) :
    (schedExtend^[k] W).length = W.length + k ∧
    (∀ t, t < W.length → (schedExtend^[k] W).getD t 0 = W.getD t 0) ∧
    (∀ t, W.length ≤ t → t < W.length + k →
      (schedExtend^[k] W).getD t 0 =
        add32 (add32 (add32 (s1 ((schedExtend^[k] W).getD (t - 2) 0))
            ((schedExtend^[k] W).getD (t - 7) 0))
          (s0 ((schedExtend^[k] W).getD (t - 15) 0)))
          ((schedExtend^[k] W).getD (t - 16) 0)) := by
  induction k with
  | zero => exact ⟨rfl, fun t _ => rfl, fun t h1 h2 => absurd (Nat.lt_of_le_of_lt h1 h2) (by omega)⟩
  | succ n ih =>
    obtain ⟨hlen, hpre, hrec⟩ := ih
    rw [Function.iterate_succ_apply']
    set V := schedExtend^[n] W with hV
    refine ⟨by rw [schedExtend_length, hlen]; omega, ?_, ?_⟩
    · intro t ht
      rw [schedExtend_getD_lt V t (by omega), hpre t ht]
    · intro t h1 h2
      rcases Nat.lt_or_ge t V.length with hlt | hge
      · rw [schedExtend_getD_lt V t hlt,
          schedExtend_getD_lt V (t - 2) (by omega),
          schedExtend_getD_lt V (t - 7) (by omega),
          schedExtend_getD_lt V (t - 15) (by omega),
          schedExtend_getD_lt V (t - 16) (by omega)]
        exact hrec t h1 (by omega)
      · have hteq : t = V.length := by omega
        subst hteq
        rw [schedExtend_getD_self V,
          schedExtend_getD_lt V (V.length - 2) (by omega),
          schedExtend_getD_lt V (V.length - 7) (by omega),
          schedExtend_getD_lt V (V.length - 15) (by omega),
          schedExtend_getD_lt V (V.length - 16) (by omega)]

/-- C1: for the empty input (`len = 0`) `sha256` returns the standard
empty-string SHA-256 digest `e3b0c442...b855`; the computation uses a
single block (`Nblocks 0 = 1`) whose byte 0 is the `0x80` marker, whose
remaining pre-length bytes are zero, and whose words 14 and 15 encode the
bit length 0. -/
theorem sha256_empty_vector_spec :
    sha256 [] 0 =
      [0xe3, 0xb0, 0xc4, 0x42, 0x98, 0xfc, 0x1c, 0x14,
       0x9a, 0xfb, 0xf4, 0xc8, 0x99, 0x6f, 0xb9, 0x24,
       0x27, 0xae, 0x41, 0xe4, 0x64, 0x9b, 0x93, 0x4c,
       0xa4, 0x95, 0x99, 0x1b, 0x78, 0x52, 0xb8, 0x55] ∧
    Nblocks 0 = 1 ∧
    blockByte [] 0 0 1 1 0 = 0x80 ∧
    (∀ j, j < 64 → 1 ≤ j → blockByte [] 0 0 1 1 j = 0) ∧
    (blockWords [] 0 0 1 1).getD 14 0 = 0 ∧
    (blockWords [] 0 0 1 1).getD 15 0 = 0 := by decide

/-- C2: for the three-byte ASCII input `"abc"`, `sha256` returns the
digest `ba7816bf...15ad`. -/
theorem sha256_abc_vector :
    sha256 [0x61, 0x62, 0x63] 3 =
      [0xba, 0x78, 0x16, 0xbf, 0x8f, 0x01, 0xcf, 0xea,
       0x41, 0x41, 0x40, 0xde, 0x5d, 0xae, 0x22, 0x23,
       0xb0, 0x03, 0x61, 0xa3, 0x96, 0x17, 0x7a, 0x9c,
       0xb4, 0x10, 0xff, 0x61, 0xf2, 0x00, 0x15, 0xad] := by decide

/-- C3: for every input byte length `len` the number of 64-byte blocks is
`len / 64 + 1 + (1 if len % 64 ≥ 56 else 0)`, and when `len` is a multiple
of 64 the data cursor already equals `len` before the final block, so that
block is a dedicated padding block containing no raw data. -/
theorem sha256_block_count_spec (len : Nat) :
    Nblocks len = len / 64 + 1 + (if len % 64 ≥ 56 then 1 else 0) ∧
    (len % 64 = 0 →
      Nblocks len = len / 64 + 1 ∧
      ∀ data : List Nat,
        (sha256Loop data len (Nblocks len - 1)).2 = len ∧
        msgblkLen len (sha256Loop data len (Nblocks len - 1)).2 = 0) := by
  refine ⟨rfl, fun h => ?_⟩
  have hN : Nblocks len = len / 64 + 1 := by simp [Nblocks, h]
  refine ⟨hN, fun data => ?_⟩
  rw [hN, dataPos_eq]
  unfold msgblkLen
  omega

/-- C3 witness: the block-count theorem instantiated at `len = 128`, a
multiple of 64, with the divisibility hypothesis discharged. -/
theorem sha256_block_count_witness :
    Nblocks 128 = 128 / 64 + 1 ∧
    (sha256Loop [] 128 (Nblocks 128 - 1)).2 = 128 ∧
    msgblkLen 128 (sha256Loop [] 128 (Nblocks 128 - 1)).2 = 0 :=
  ⟨((sha256_block_count_spec 128).2 (by decide)).1,
   (((sha256_block_count_spec 128).2 (by decide)).2 []).1,
   (((sha256_block_count_spec 128).2 (by decide)).2 []).2⟩

/-- C4: for every 16-word block the 64-word message schedule satisfies
`W[t] = M[t]` for `t < 16` and
`W[t] = s1 W[t-2] + W[t-7] + s0 W[t-15] + W[t-16]` (addition mod 2^32) for
`16 ≤ t ≤ 63`, with `s0 x = rotr7 ^ rotr18 ^ (x >> 3)` and
`s1 x = rotr17 ^ rotr19 ^ (x >> 10)`. -/
theorem sha256_schedule_spec (Mw : List Nat) (h : Mw.length = 16) :
    (∀ x, s0 x = ROTR x 7 ^^^ ROTR x 18 ^^^ (x >>> 3)) ∧
    (∀ x, s1 x = ROTR x 17 ^^^ ROTR x 19 ^^^ (x >>> 10)) ∧
    (schedule Mw).length = 64 ∧
    (∀ t, t < 16 → (schedule Mw).getD t 0 = Mw.getD t 0) ∧
    (∀ t, 16 ≤ t → t < 64 →
      (schedule Mw).getD t 0 =
        add32 (add32 (add32 (s1 ((schedule Mw).getD (t - 2) 0))
            ((schedule Mw).getD (t - 7) 0))
          (s0 ((schedule Mw).getD (t - 15) 0)))
          ((schedule Mw).getD (t - 16) 0)) := by
  obtain ⟨hlen, hpre, hrec⟩ := schedExtend_iterate_spec Mw (by omega) 48
  exact ⟨fun x => rfl, fun x => rfl,
    by show (schedExtend^[48] Mw).length = 64; omega,
    fun t ht => hpre t (by omega),
    fun t h1 h2 => hrec t (by omega) (by omega)⟩

/-- C4 witness: the schedule theorem instantiated at the all-zero block,
whose length hypothesis holds by evaluation. -/
theorem sha256_schedule_spec_witness :
    (List.replicate 16 0).length = 16 ∧
    (schedule (List.replicate 16 0)).length = 64 ∧
    (∀ t, 16 ≤ t → t < 64 →
      (schedule (List.replicate 16 0)).getD t 0 =
        add32 (add32 (add32 (s1 ((schedule (List.replicate 16 0)).getD (t - 2) 0))
            ((schedule (List.replicate 16 0)).getD (t - 7) 0))
          (s0 ((schedule (List.replicate 16 0)).getD (t - 15) 0)))
          ((schedule (List.replicate 16 0)).getD (t - 16) 0)) :=
  ⟨by decide, (sha256_schedule_spec (List.replicate 16 0) (by decide)).2.2.1,
   (sha256_schedule_spec (List.replicate 16 0) (by decide)).2.2.2.2⟩

/-- C5: every compression round computes
`T1 = h + e1 e + CH e f g + K[t] + W[t]` and `T2 = e0 a + MAJ a b c` and
shifts the working variables `h=g; g=f; f=e; e=d+T1; d=c; c=b; b=a;
a=T1+T2` (mod 2^32), and after the 64 rounds the working variables are
added back into the eight hash words mod 2^32. -/
theorem sha256_compression_spec :
    (∀ (Ws : List Nat) (r : Regs) (t : Nat), t < 64 →
      compressFrom Ws r (t + 1) =
        ROUND (K.getD t 0) (Ws.getD t 0) (compressFrom Ws r t)) ∧
    (∀ (k w : Nat) (p : Regs),
      ROUND k w p =
        (fun T1 T2 => Regs.mk (add32 T1 T2) p.a p.b p.c (add32 p.d T1) p.e p.f p.g)
          (add32 (add32 (add32 (add32 p.h (e1 p.e)) (CH p.e p.f p.g)) k) w)
          (add32 (e0 p.a) (MAJ p.a p.b p.c))) ∧
    (∀ H Mw : List Nat,
      processBlock H Mw =
        (fun r =>
          [add32 (H.getD 0 0) r.a, add32 (H.getD 1 0) r.b,
           add32 (H.getD 2 0) r.c, add32 (H.getD 3 0) r.d,
           add32 (H.getD 4 0) r.e, add32 (H.getD 5 0) r.f,
           add32 (H.getD 6 0) r.g, add32 (H.getD 7 0) r.h])
          (compressFrom (schedule Mw) (initRegs H) 64)) :=
  ⟨fun _ _ _ _ => rfl, fun _ _ _ => rfl, fun _ _ => rfl⟩

/-- C5 witness: the round of index 0 on the zero state with an empty
schedule, the round equation, and the add-back, all at concrete inputs. -/
theorem sha256_compression_spec_witness :
    compressFrom [] ⟨0, 0, 0, 0, 0, 0, 0, 0⟩ (0 + 1) =
      ROUND (K.getD 0 0) (List.getD [] 0 0) (compressFrom [] ⟨0, 0, 0, 0, 0, 0, 0, 0⟩ 0) :=
  sha256_compression_spec.1 [] ⟨0, 0, 0, 0, 0, 0, 0, 0⟩ 0 (by decide)

/-- Every message block consists of exactly 16 words (64 bytes). -/
lemma blockWords_length (data : List Nat) (len dataPos i N : Nat) :
    (blockWords data len dataPos i N).length = 16 := by
  unfold blockWords
  by_cases h : i = N <;> simp [h]

/-- The final block (`i = N`) written out: the 14 byte-swapped data words
followed by the high and low halves of the 64-bit bit length. -/
lemma blockWords_final (data : List Nat) (len dataPos N : Nat) :
    blockWords data len dataPos N N =
      [wordAt data len dataPos N N 0, wordAt data len dataPos N N 1,
       wordAt data len dataPos N N 2, wordAt data len dataPos N N 3,
       wordAt data len dataPos N N 4, wordAt data len dataPos N N 5,
       wordAt data len dataPos N N 6, wordAt data len dataPos N N 7,
       wordAt data len dataPos N N 8, wordAt data len dataPos N N 9,
       wordAt data len dataPos N N 10, wordAt data len dataPos N N 11,
       wordAt data len dataPos N N 12, wordAt data len dataPos N N 13,
       (((len * 8) % 2 ^ 64) >>> 32) % 2 ^ 32,
       ((len * 8) % 2 ^ 64) % 2 ^ 32] := by
  unfold blockWords
  simp only [eq_self_iff_true, if_true]
  rfl

/-- C6: the final block's words 14 and 15 hold the high and low 32-bit
halves of the 64-bit bit length `(uint64_t)len * 8`; when `len * 8` fits in
64 bits they encode exactly the original bit length.  Every block has 16
words, so the padded message is always a whole number of 64-byte blocks. -/
theorem sha256_final_block_length_encoding (data : List Nat) (len dataPos i N : Nat) :
    (blockWords data len dataPos i N).length = 16 ∧
    (i = N →
      (blockWords data len dataPos i N).getD 14 0 = (((len * 8) % 2 ^ 64) >>> 32) % 2 ^ 32 ∧
      (blockWords data len dataPos i N).getD 15 0 = ((len * 8) % 2 ^ 64) % 2 ^ 32 ∧
      (len * 8 < 2 ^ 64 →
        (blockWords data len dataPos i N).getD 14 0 * 2 ^ 32 +
          (blockWords data len dataPos i N).getD 15 0 = len * 8)) := by
  refine ⟨blockWords_length data len dataPos i N, fun hi => ?_⟩
  subst hi
  rw [blockWords_final]
  refine ⟨rfl, rfl, fun hfit => ?_⟩
  have e14 : (List.getD [wordAt data len dataPos i i 0, wordAt data len dataPos i i 1,
      wordAt data len dataPos i i 2, wordAt data len dataPos i i 3,
      wordAt data len dataPos i i 4, wordAt data len dataPos i i 5,
      wordAt data len dataPos i i 6, wordAt data len dataPos i i 7,
      wordAt data len dataPos i i 8, wordAt data len dataPos i i 9,
      wordAt data len dataPos i i 10, wordAt data len dataPos i i 11,
      wordAt data len dataPos i i 12, wordAt data len dataPos i i 13,
      (((len * 8) % 2 ^ 64) >>> 32) % 2 ^ 32,
      ((len * 8) % 2 ^ 64) % 2 ^ 32] 14 0) = (((len * 8) % 2 ^ 64) >>> 32) % 2 ^ 32 := rfl
  have e15 : (List.getD [wordAt data len dataPos i i 0, wordAt data len dataPos i i 1,
      wordAt data len dataPos i i 2, wordAt data len dataPos i i 3,
      wordAt data len dataPos i i 4, wordAt data len dataPos i i 5,
      wordAt data len dataPos i i 6, wordAt data len dataPos i i 7,
      wordAt data len dataPos i i 8, wordAt data len dataPos i i 9,
      wordAt data len dataPos i i 10, wordAt data len dataPos i i 11,
      wordAt data len dataPos i i 12, wordAt data len dataPos i i 13,
      (((len * 8) % 2 ^ 64) >>> 32) % 2 ^ 32,
      ((len * 8) % 2 ^ 64) % 2 ^ 32] 15 0) = ((len * 8) % 2 ^ 64) % 2 ^ 32 := rfl
  rw [e14, e15, Nat.shiftRight_eq_div_pow]
  omega

/-- C6 witness: the length-encoding theorem at the "abc" call, with the
final-block and representability hypotheses discharged. -/
theorem sha256_final_block_length_encoding_witness :
    (blockWords [0x61, 0x62, 0x63] 3 0 1 1).getD 14 0 * 2 ^ 32 +
      (blockWords [0x61, 0x62, 0x63] 3 0 1 1).getD 15 0 = 3 * 8 :=
  (((sha256_final_block_length_encoding [0x61, 0x62, 0x63] 3 0 1 1).2 rfl).2.2) (by decide)

/-- C7: exactly one block of the whole padded message receives the `0x80`
marker — block `len / 64 + 1` — at the byte position immediately following
the copied raw data, and every block byte past the marker position (or, in
a block without the marker, at or past the data) is zero. -/
theorem sha256_marker_spec (data : List Nat) (len : Nat) :
    (1 ≤ len / 64 + 1 ∧ len / 64 + 1 ≤ Nblocks len) ∧
    padHere len (msgblkLen len (sha256Loop data len (len / 64)).2)
      (len / 64 + 1) (Nblocks len) = true ∧
    blockByte data len (sha256Loop data len (len / 64)).2 (len / 64 + 1) (Nblocks len)
      (msgblkLen len (sha256Loop data len (len / 64)).2) = 0x80 ∧
    (∀ i, 1 ≤ i → i ≤ Nblocks len →
      padHere len (msgblkLen len (sha256Loop data len (i - 1)).2) i (Nblocks len) = true →
      i = len / 64 + 1) ∧
    (∀ i j, msgblkLen len (sha256Loop data len (i - 1)).2 < j →
      blockByte data len (sha256Loop data len (i - 1)).2 i (Nblocks len) j = 0) ∧
    (∀ i j, padHere len (msgblkLen len (sha256Loop data len (i - 1)).2) i (Nblocks len) = false →
      msgblkLen len (sha256Loop data len (i - 1)).2 ≤ j →
      blockByte data len (sha256Loop data len (i - 1)).2 i (Nblocks len) j = 0) := by
  have hpad : padHere len (msgblkLen len (sha256Loop data len (len / 64)).2)
      (len / 64 + 1) (Nblocks len) = true := by
    rw [dataPos_eq]
    simp only [padHere, msgblkLen, Nblocks, Bool.or_eq_true, Bool.and_eq_true,
      decide_eq_true_eq]
    by_cases h56 : 56 ≤ len % 64 <;> by_cases h0 : len % 64 = 0 <;> simp [h56, h0] <;> omega
  refine ⟨?_, hpad, ?_, ?_, ?_, ?_⟩
  · unfold Nblocks; split <;> omega
  · have hnotlt : ¬ (msgblkLen len (sha256Loop data len (len / 64)).2 <
        msgblkLen len (sha256Loop data len (len / 64)).2) := Nat.lt_irrefl _
    simp [blockByte, hpad, hnotlt]
  · intro i h1 h2 hp
    rw [dataPos_eq] at hp
    simp only [padHere, msgblkLen, Nblocks, Bool.or_eq_true, Bool.and_eq_true,
      decide_eq_true_eq] at hp h2
    by_cases h56 : 56 ≤ len % 64 <;> by_cases h0 : len % 64 = 0 <;>
      simp [h56, h0] at hp h2 <;> omega
  · intro i j hj
    have h1 : ¬ (j < msgblkLen len (sha256Loop data len (i - 1)).2) := by omega
    have h2 : (j = msgblkLen len (sha256Loop data len (i - 1)).2) = False :=
      eq_false (by omega)
    simp [blockByte, h1, h2]
  · intro i j hp hj
    have h1 : ¬ (j < msgblkLen len (sha256Loop data len (i - 1)).2) := by omega
    simp [blockByte, h1, hp]

/-- C7 witness: the marker theorem at the one-byte input `[0x61]`, whose
marker lands in block 1 at byte position 1, with the bytes after it zero. -/
theorem sha256_marker_spec_witness :
    blockByte [0x61] 1 (sha256Loop [0x61] 1 (1 / 64)).2 (1 / 64 + 1) (Nblocks 1)
      (msgblkLen 1 (sha256Loop [0x61] 1 (1 / 64)).2) = 0x80 ∧
    (∀ i j, msgblkLen 1 (sha256Loop [0x61] 1 (i - 1)).2 < j →
      blockByte [0x61] 1 (sha256Loop [0x61] 1 (i - 1)).2 i (Nblocks 1) j = 0) :=
  ⟨(sha256_marker_spec [0x61] 1).2.2.1, (sha256_marker_spec [0x61] 1).2.2.2.2.1⟩

/-- C10: whenever the padding-marker condition of line 187 holds, the copy
length `msgblk_len` is strictly below 64, so the `0x80` store at offset
`msgblk_len` stays inside the 64-byte block; when `len` is block-aligned
and `i` is the final block, `msgblk_len` is 0. -/
theorem sha256_marker_in_bounds (data : List Nat) (len i : Nat)
    (h1 : 1 ≤ i) (h2 : i ≤ Nblocks len)
    (hp : padHere len (msgblkLen len (sha256Loop data len (i - 1)).2) i (Nblocks len) = true) :
    msgblkLen len (sha256Loop data len (i - 1)).2 < 64 ∧
    (len % 64 = 0 ∧ i = Nblocks len →
      msgblkLen len (sha256Loop data len (i - 1)).2 = 0) := by
  rw [dataPos_eq] at hp ⊢
  simp only [padHere, msgblkLen, Nblocks, Bool.or_eq_true, Bool.and_eq_true,
    decide_eq_true_eq] at hp h2 ⊢
  by_cases h56 : 56 ≤ len % 64 <;> by_cases h0 : len % 64 = 0 <;>
    simp [h56, h0] at hp h2 ⊢ <;> omega

/-- C10 witness: the in-bounds theorem at the empty input, whose only
block is the aligned final block with `msgblk_len = 0`. -/
theorem sha256_marker_in_bounds_witness :
    msgblkLen 0 (sha256Loop [] 0 0).2 < 64 ∧
    (0 % 64 = 0 ∧ 1 = Nblocks 0 → msgblkLen 0 (sha256Loop [] 0 0).2 = 0) :=
  sha256_marker_in_bounds [] 0 1 (by decide) (by decide) (by decide)

/-- Content of the function-static buffer `md` (line 271) after a sequence
of `sha256` calls: every call memcpys its digest into the same
process-wide 32-byte array and returns a pointer to it (lines 271-274), so
the buffer retains only the most recent digest. -/
def mdStatic (calls : List (List Nat × Nat)) : List Nat :=
  calls.foldl (fun _ c => sha256 c.1 c.2) (List.replicate 32 0)

/-- C8 is violated by the code: after calling `sha256` on the empty input
and then on `"abc"`, the shared static buffer — the storage the first
caller's returned pointer still designates — holds the `"abc"` digest and
no longer the first caller's digest. -/
theorem sha256_static_buffer_overwrite :
    mdStatic [([], 0), ([0x61, 0x62, 0x63], 3)] = sha256 [0x61, 0x62, 0x63] 3 ∧
    mdStatic [([], 0), ([0x61, 0x62, 0x63], 3)] ≠ sha256 [] 0 := by decide

/-- C9 is violated by the code: `sha256` has no error outcome at all.  For
`len = 2^61` the computed `uint64_t` bit length `len * 8` wraps to 0, and
the final block of that computation is bit-for-bit the final block of the
empty input — the wrap is silent.  The `min` conjunct records that
`2^61` is the genuine `data_pos` value before that final block. -/
theorem sha256_length_wrap_counterexample :
    (2 ^ 61 * 8) % 2 ^ 64 = 0 ∧
    min (64 * (Nblocks (2 ^ 61) - 1)) (2 ^ 61) = 2 ^ 61 ∧
    blockWords [] (2 ^ 61) (2 ^ 61) (Nblocks (2 ^ 61)) (Nblocks (2 ^ 61)) =
      blockWords [] 0 0 (Nblocks 0) (Nblocks 0) := by decide

/-- C9 amended: `sha256` reports no error for any input — it always
produces a 32-byte digest — and the final block's length field holds
`len * 8` reduced modulo 2^64, i.e. a silently wrapped value when the bit
length does not fit in 64 bits. -/
theorem sha256_no_error_outcome (data : List Nat) (len dataPos N : Nat) :
    (blockWords data len dataPos N N).getD 14 0 = (((len * 8) % 2 ^ 64) >>> 32) % 2 ^ 32 ∧
    (blockWords data len dataPos N N).getD 15 0 = ((len * 8) % 2 ^ 64) % 2 ^ 32 ∧
    (sha256 data len).length = 32 := by
  refine ⟨by rw [blockWords_final]; rfl, by rw [blockWords_final]; rfl, ?_⟩
  show (digestOfH (sha256Loop data len (Nblocks len)).1).length = 32
  rw [digestOfH_length, hashState_length]

end CSha256
